import Mathlib

/-!
Verification of the roboclip scene-flow / replay pipeline.

The geometric core (`compute_optical_flow.py`) and the replay helpers
(`replay_local_data.py`) are shallowly embedded below.  Machine floats are
modelled by exact rationals (and, for the quaternion norms, by reals);
`NaN` pixels of the flow field are modelled by `Option`: `none` stands for a
pixel whose two flow components are NaN.
-/

/-- Pinhole intrinsics as produced by `load_metadata` in
`compute_optical_flow.py` (`fx`, `fy`, `cx`, `cy`, plus the depth grid size,
which the geometric functions never read). -/
structure Intr where
  fx : ℚ
  fy : ℚ
  cx : ℚ
  cy : ℚ
  width : ℕ
  height : ℕ
deriving DecidableEq

/-- A camera-space 3D point. -/
abbrev Vec3 : Type := ℚ × ℚ × ℚ

/-- A 4x4 homogeneous pose matrix. -/
abbrev Mat4 : Type := Matrix (Fin 4) (Fin 4) ℚ

/-- `depth_to_points` of `compute_optical_flow.py`: for grid pixel
`(px, py)` with depth `z`, return `((px - cx) * z / fx, (py - cy) * z / fy, z)`.
The depth map is a function of `(py, px)` (row, column), mirroring the numpy
array indexing; the meshgrid coordinates are the integer pixel indices. -/
def depth_to_points (depth : ℕ → ℕ → ℚ) (intr : Intr) : ℕ → ℕ → Vec3 :=
  fun py px =>
    ((px - intr.cx) * depth py px / intr.fx,
     (py - intr.cy) * depth py px / intr.fy,
     depth py px)

/-- Application of a 4x4 pose to one 3D point, as done inside
`transform_points`: append a homogeneous `1`, multiply, keep the first three
components. -/
def applyPose (pose : Mat4) (p : Vec3) : Vec3 :=
  let v : Fin 4 → ℚ := ![p.1, p.2.1, p.2.2, 1]
  (pose.mulVec v 0, pose.mulVec v 1, pose.mulVec v 2)

/-- `transform_points` of `compute_optical_flow.py`, pointwise over the grid. -/
def transform_points (pts : ℕ → ℕ → Vec3) (pose : Mat4) : ℕ → ℕ → Vec3 :=
  fun py px => applyPose pose (pts py px)

/-- `project_points` of `compute_optical_flow.py`:
`u = fx * X / Z + cx`, `v = fy * Y / Z + cy`. -/
def project_points (pts : ℕ → ℕ → Vec3) (intr : Intr) : ℕ → ℕ → ℚ × ℚ :=
  fun py px =>
    (intr.fx * (pts py px).1 / (pts py px).2.2 + intr.cx,
     intr.fy * (pts py px).2.1 / (pts py px).2.2 + intr.cy)

/-- `np.linalg.inv` on a 4x4 matrix, in exact arithmetic:
the adjugate divided by the determinant. -/
def mat4Inv (A : Mat4) : Mat4 := (A.det)⁻¹ • A.adjugate

/-- `compute_flow` of `compute_optical_flow.py`, pointwise: unproject
`depth1`, transform by `pose1`, transform by `inv(pose2)`, project, subtract
the pixel grid; pixels with `depth1 <= 0` or camera2-local `Z <= 0` are set to
NaN (modelled as `none`).  `depth2` is accepted (as in the source) but never
read. -/
def compute_flow (depth1 depth2 : ℕ → ℕ → ℚ) (pose1 pose2 : Mat4)
    (intr : Intr) : ℕ → ℕ → Option (ℚ × ℚ) :=
  fun py px =>
    let pts1 := depth_to_points depth1 intr
    let world := transform_points pts1 pose1
    let cam2_inv := mat4Inv pose2
    let pts2_cam := transform_points world cam2_inv
    let proj := project_points pts2_cam intr
    if 0 < depth1 py px ∧ 0 < (pts2_cam py px).2.2 then
      some ((proj py px).1 - px, (proj py px).2 - py)
    else
      none

/-- The camera2-local point described by the specification of `compute_flow`:
unproject `depth1` at `(px, py)`, map through `pose1` into the world frame,
then through a given inverse of `pose2` into the camera2 frame. -/
def cam2Point (depth1 : ℕ → ℕ → ℚ) (pose1 pose2inv : Mat4) (intr : Intr)
    (py px : ℕ) : Vec3 :=
  applyPose pose2inv (applyPose pose1 (depth_to_points depth1 intr py px))

/-- An IMU event as built by `parse_imu_bin` in `replay_local_data.py`:
timestamp, attitude (roll, pitch, yaw), rotation rate, user acceleration,
and gravity when the record had 13 fields. -/
structure ImuEvent where
  timestamp : ℚ
  attitude : ℚ × ℚ × ℚ
  rotationRate : ℚ × ℚ × ℚ
  userAcceleration : ℚ × ℚ × ℚ
  gravity : Option (ℚ × ℚ × ℚ)
deriving DecidableEq

/-- One line of the IMU CSV file after `strip()`: `blank` records whether the
stripped text is empty (such lines are skipped before splitting), and `parts`
models `line.split(',')` together with the result of `float()` on each token
(`none` when the token does not parse as a number). -/
structure CsvLine where
  blank : Bool
  parts : List (Option ℚ)
deriving DecidableEq

/-- The per-line behaviour of the loop body of `parse_imu_bin`: a blank line
yields nothing; a line of 13 numeric fields yields an event with gravity; a
line of 10 numeric fields yields an event without gravity; anything else
(wrong field count, or a field that fails `float()`) yields nothing and is
reported with a warning. -/
def parse_imu_line (l : CsvLine) : Option ImuEvent :=
  if l.blank then none
  else
    match l.parts with
    | [some t, some roll, some pitch, some yaw, some rx, some ry, some rz,
       some ax, some ay, some az, some gx, some gy, some gz] =>
        some ⟨t, (roll, pitch, yaw), (rx, ry, rz), (ax, ay, az),
          some (gx, gy, gz)⟩
    | [some t, some roll, some pitch, some yaw, some rx, some ry, some rz,
       some ax, some ay, some az] =>
        some ⟨t, (roll, pitch, yaw), (rx, ry, rz), (ax, ay, az), none⟩
    | _ => none

/-- `parse_imu_bin` of `replay_local_data.py`, on the list of lines of the
file: the first line is consumed as a header (`f.readline()`), and every
remaining line contributes an event exactly when it is well formed. -/
def parse_imu_bin (lines : List CsvLine) : List ImuEvent :=
  (lines.drop 1).filterMap parse_imu_line

/-- Number of warnings printed by `parse_imu_bin`: one for every non-blank
body line that fails to produce an event (wrong field count, or a failed
float conversion). -/
def parse_imu_warning_count (lines : List CsvLine) : ℕ :=
  (lines.drop 1).countP fun l => !l.blank && (parse_imu_line l).isNone

/-- Test fixture: a well-formed 10-field IMU line (all fields numeric). -/
def imu_line_ten : CsvLine := ⟨false, List.replicate 10 (some 0)⟩

/-- Test fixture: a well-formed 13-field IMU line (all fields numeric). -/
def imu_line_thirteen : CsvLine := ⟨false, List.replicate 13 (some 0)⟩

/-- Test fixture: a malformed IMU line (one field, not numeric). -/
def imu_line_bad : CsvLine := ⟨false, [none]⟩

/-- Test fixture for the spec scenario: a header line followed by 100 data
lines of which 98 are well formed and 2 are malformed. -/
def imu_scenario_file : List CsvLine :=
  imu_line_ten ::
    (List.replicate 98 imu_line_ten ++ List.replicate 2 imu_line_bad)

/-- A camera-pose record from `camera_poses.json`:
`{"timestamp": ..., "matrix": [[...]]}`. -/
structure PoseEntry where
  timestamp : ℚ
  matrix : Mat4
deriving DecidableEq

/-- `np.searchsorted(a, v, side='left')` on an ascending-sorted list: the
insertion index, i.e. the number of elements strictly below `v` (this is the
value the binary search returns whenever `a` is sorted, which the callers
ensure). -/
def searchsorted_left (a : List ℚ) (v : ℚ) : ℕ :=
  a.countP fun x => x < v

/-- The common body of `find_closest_imu_event` and `find_closest_pose`
(`replay_local_data.py`), which are textually identical up to the name of the
timestamp field: empty input yields `none`; insertion index 0 yields the first
element; insertion index `length` yields the last; otherwise the neighbour of
the insertion point with the strictly smaller distance is taken, the later one
on ties. -/
def find_closest_by (f : α → ℚ) (t : ℚ) (l : List α) : Option α :=
  if l.isEmpty then none
  else
    let ts := l.map f
    let idx := searchsorted_left ts t
    if idx = 0 then l.get? 0
    else if idx = l.length then l.get? (l.length - 1)
    else if t - ts.getD (idx - 1) 0 < ts.getD idx 0 - t then l.get? (idx - 1)
    else l.get? idx

/-- `find_closest_imu_event` of `replay_local_data.py`. -/
def find_closest_imu_event (t : ℚ) (events : List ImuEvent) :
    Option ImuEvent :=
  find_closest_by ImuEvent.timestamp t events

/-- `find_closest_pose` of `replay_local_data.py`. -/
def find_closest_pose (t : ℚ) (poses : List PoseEntry) : Option PoseEntry :=
  find_closest_by PoseEntry.timestamp t poses

/-- A `.d32` depth file as seen by `load_depth_frames`: its float32 element
count and the timestamp parsed from its filename (`none` when the regex does
not match). The decoded frame itself is identified with the file. -/
structure DepthFile where
  size : ℕ
  nameTs : Option ℚ
deriving DecidableEq

/-- The loop of `load_depth_frames`, over the sorted file list with running
index `idx`: the timestamp (from the filename, with the index as fallback) is
appended for every file, while the frame is appended only when the element
count matches `expected`. -/
def load_depth_frames_aux (expected : ℕ) : ℕ → List DepthFile →
    List DepthFile × List ℚ
  | _, [] => ([], [])
  | idx, f :: rest =>
    let tail := load_depth_frames_aux expected (idx + 1) rest
    let ts : ℚ :=
      match f.nameTs with
      | some t => t
      | none => (idx : ℚ)
    if f.size = expected then (f :: tail.1, ts :: tail.2)
    else (tail.1, ts :: tail.2)

/-- `load_depth_frames` of `replay_local_data.py`: invalid (zero / missing)
grid dimensions yield empty results; otherwise each file whose element count
equals `height * width` contributes a frame, and every file contributes a
timestamp. -/
def load_depth_frames (files : List DepthFile) (depthWidth depthHeight : ℕ) :
    List DepthFile × List ℚ :=
  if depthWidth = 0 ∨ depthHeight = 0 then ([], [])
  else load_depth_frames_aux (depthHeight * depthWidth) 0 files

/-- Python `min(range(n), key=g)`: the first index attaining the minimum of
`g` on `0, ..., n-1` (`0` when `n = 0`, a case the caller excludes). -/
def argmin_range (g : ℕ → ℚ) (n : ℕ) : ℕ :=
  (List.range n).foldl (fun best j => if g j < g best then j else best) 0

/-- The per-step depth fetch of the synchronized loop of
`visualize_single_session_in_rerun` (`replay_local_data.py`): on every primary
step the index of the depth frame whose timestamp is closest to the step's
timestamp is selected (`none` when the depth stream is empty); there is no
step decimation. -/
def depth_fetch_schedule (primary_ts depth_ts : List ℚ) : List (Option ℕ) :=
  primary_ts.map fun t =>
    if depth_ts.isEmpty then none
    else some (argmin_range (fun j => |depth_ts.getD j 0 - t|) depth_ts.length)

/-- Follows the spec's words (this policy does not occur in the source): the
decimation interval `k = round(estimated_primary_fps / target_depth_fps)`
clamped to at least 1, with
`estimated_primary_fps = (count - 1) / (t_last - t_first)`. -/
def spec_decimation_interval (primary_ts : List ℚ) (target_depth_fps : ℚ) :
    ℤ :=
  let n := primary_ts.length
  let tfirst := primary_ts.headD 0
  let tlast := primary_ts.getLastD 0
  max 1 (round ((((n : ℚ) - 1) / (tlast - tfirst)) / target_depth_fps))

/-- A quaternion in scalar-last (x, y, z, w) convention, over exact reals. -/
abbrev Quat : Type := ℝ × ℝ × ℝ × ℝ

/-- Squared Euclidean norm of a quaternion. -/
def quatNormSq (q : Quat) : ℝ :=
  q.1 ^ 2 + q.2.1 ^ 2 + q.2.2.1 ^ 2 + q.2.2.2 ^ 2

/-- `np.linalg.norm` of a quaternion. -/
noncomputable def quatNorm (q : Quat) : ℝ :=
  Real.sqrt (quatNormSq q)

/-- Scalar multiple of a quaternion. -/
def quatScale (c : ℝ) (q : Quat) : Quat :=
  (c * q.1, c * q.2.1, c * q.2.2.1, c * q.2.2.2)

/-- The Hamilton product of scalar-last quaternions. -/
def hamilton (a b : Quat) : Quat :=
  (a.2.2.2 * b.1 + a.1 * b.2.2.2 + a.2.1 * b.2.2.1 - a.2.2.1 * b.2.1,
   a.2.2.2 * b.2.1 - a.1 * b.2.2.1 + a.2.1 * b.2.2.2 + a.2.2.1 * b.1,
   a.2.2.2 * b.2.2.1 + a.1 * b.2.1 - a.2.1 * b.1 + a.2.2.1 * b.2.2.2,
   a.2.2.2 * b.2.2.2 - a.1 * b.1 - a.2.1 * b.2.1 - a.2.2.1 * b.2.2.1)

/-- `quaternion_multiply` of `replay_local_data.py`: SciPy normalizes both
input quaternions (`R.from_quat`) and returns the Hamilton product of the
normalized rotations. -/
noncomputable def quaternion_multiply (q1 q2 : Quat) : Quat :=
  hamilton (quatScale (quatNorm q1)⁻¹ q1) (quatScale (quatNorm q2)⁻¹ q2)

/-- The identity rotation in xyzw convention. -/
def quatId : Quat := (0, 0, 0, 1)

/-- The post-composition guard at the IMU-only call site
(`replay_local_data.py` lines 432-434): normalize only when the norm exceeds
1e-6; otherwise the result is kept unchanged (there is no identity
fallback). -/
noncomputable def renorm_imu_only_site (q : Quat) : Quat :=
  if 1e-6 < quatNorm q then quatScale (quatNorm q)⁻¹ q else q

/-- The post-composition guard at the synchronized-loop call site
(`replay_local_data.py` lines 566-570): normalize when the norm exceeds 1e-6,
and fall back to the identity quaternion otherwise. -/
noncomputable def renorm_sync_site (q : Quat) : Quat :=
  if 1e-6 < quatNorm q then quatScale (quatNorm q)⁻¹ q else quatId

/-- The adjugate-over-determinant inverse coincides with Mathlib's matrix
inverse. -/
theorem mat4Inv_eq_inv (A : Mat4) : mat4Inv A = A⁻¹ := by
  rw [Matrix.inv_def, Ring.inverse_eq_inv, mat4Inv]

/-- If `B` is a right inverse of `A` then `np.linalg.inv` returns `B`. -/
theorem mat4Inv_eq_of_right_inv {A B : Mat4} (h : A * B = 1) :
    mat4Inv A = B := by
  rw [mat4Inv_eq_inv]
  exact Matrix.inv_eq_right_inv h

/-- C3: for intrinsics with `fx ≠ 0` and `fy ≠ 0`, projecting the
unprojection of a depth map with the same intrinsics reproduces the pixel
grid exactly (in exact arithmetic) at every pixel with positive depth. -/
theorem project_unproject_id (depth : ℕ → ℕ → ℚ) (intr : Intr)
    (hfx : intr.fx ≠ 0) (hfy : intr.fy ≠ 0) (py px : ℕ)
    (hd : 0 < depth py px) :
    project_points (depth_to_points depth intr) intr py px =
      ((px : ℚ), (py : ℚ)) := by
  have hz : depth py px ≠ 0 := ne_of_gt hd
  simp only [project_points, depth_to_points]
  refine Prod.ext ?_ ?_
  · show intr.fx * ((px - intr.cx) * depth py px / intr.fx) / depth py px
        + intr.cx = (px : ℚ)
    field_simp
  · show intr.fy * ((py - intr.cy) * depth py px / intr.fy) / depth py px
        + intr.cy = (py : ℚ)
    field_simp

/-- Witness for C3 at a concrete input: depth 2 at pixel (0,0) with
`fx = fy = 1`, `cx = cy = 0`. -/
theorem project_unproject_id_witness :
    ((⟨1, 1, 0, 0, 1, 1⟩ : Intr).fx ≠ 0) ∧
    ((⟨1, 1, 0, 0, 1, 1⟩ : Intr).fy ≠ 0) ∧
    (0 : ℚ) < 2 ∧
    project_points (depth_to_points (fun _ _ => 2) ⟨1, 1, 0, 0, 1, 1⟩)
      ⟨1, 1, 0, 0, 1, 1⟩ 0 0 = ((0 : ℚ), (0 : ℚ)) :=
  ⟨by norm_num, by norm_num, by norm_num,
    project_unproject_id (fun _ _ => 2) ⟨1, 1, 0, 0, 1, 1⟩
      (by norm_num) (by norm_num) 0 0 (by norm_num)⟩

/-- C1: pointwise specification of `compute_flow`.  For any pose2 with a
two-sided inverse `B`, at every pixel where `depth1 > 0` and the camera2-local
`Z` of the transported point is positive, the flow is the perspective
projection of the camera2-local point minus the pixel coordinates; at every
other pixel the flow is NaN (`none`). -/
theorem compute_flow_pointwise (depth1 depth2 : ℕ → ℕ → ℚ)
    (pose1 pose2 B : Mat4) (hB : pose2 * B = 1)
    (intr : Intr) (py px : ℕ) :
    (0 < depth1 py px →
      0 < (cam2Point depth1 pose1 B intr py px).2.2 →
      compute_flow depth1 depth2 pose1 pose2 intr py px =
        some
          (intr.fx * (cam2Point depth1 pose1 B intr py px).1 /
              (cam2Point depth1 pose1 B intr py px).2.2 + intr.cx - px,
           intr.fy * (cam2Point depth1 pose1 B intr py px).2.1 /
              (cam2Point depth1 pose1 B intr py px).2.2 + intr.cy - py)) ∧
    (depth1 py px ≤ 0 ∨ (cam2Point depth1 pose1 B intr py px).2.2 ≤ 0 →
      compute_flow depth1 depth2 pose1 pose2 intr py px = none) := by
  have hinv : mat4Inv pose2 = B := mat4Inv_eq_of_right_inv hB
  constructor
  · intro hd hz
    simp only [compute_flow, transform_points, project_points, hinv]
    rw [if_pos ⟨hd, hz⟩]
    rfl
  · intro hbad
    simp only [compute_flow, transform_points, project_points, hinv]
    rw [if_neg]
    rcases hbad with h | h
    · exact fun hc => absurd hc.1 (not_lt.mpr h)
    · exact fun hc => absurd hc.2 (not_lt.mpr h)

/-- Witness for C1: identity poses, unit intrinsics, constant depth 2,
pixel (0,0): the valid branch yields flow `(0, 0)`. -/
theorem compute_flow_pointwise_witness :
    (1 : Mat4) * 1 = 1 ∧
    (0 : ℚ) < 2 ∧
    0 < (cam2Point (fun _ _ => 2) 1 1 ⟨1, 1, 0, 0, 1, 1⟩ 0 0).2.2 ∧
    compute_flow (fun _ _ => 2) (fun _ _ => 2) 1 1 ⟨1, 1, 0, 0, 1, 1⟩ 0 0 =
      some
        ((⟨1, 1, 0, 0, 1, 1⟩ : Intr).fx *
            (cam2Point (fun _ _ => 2) 1 1 ⟨1, 1, 0, 0, 1, 1⟩ 0 0).1 /
            (cam2Point (fun _ _ => 2) 1 1 ⟨1, 1, 0, 0, 1, 1⟩ 0 0).2.2 +
            (⟨1, 1, 0, 0, 1, 1⟩ : Intr).cx - 0,
         (⟨1, 1, 0, 0, 1, 1⟩ : Intr).fy *
            (cam2Point (fun _ _ => 2) 1 1 ⟨1, 1, 0, 0, 1, 1⟩ 0 0).2.1 /
            (cam2Point (fun _ _ => 2) 1 1 ⟨1, 1, 0, 0, 1, 1⟩ 0 0).2.2 +
            (⟨1, 1, 0, 0, 1, 1⟩ : Intr).cy - 0) :=
  ⟨one_mul 1, by norm_num,
    by norm_num [cam2Point, applyPose, depth_to_points, Matrix.one_mulVec],
    (compute_flow_pointwise (fun _ _ => 2) (fun _ _ => 2) 1 1 1 (one_mul 1)
      ⟨1, 1, 0, 0, 1, 1⟩ 0 0).1 (by norm_num)
      (by norm_num [cam2Point, applyPose, depth_to_points,
        Matrix.one_mulVec])⟩

/-- Cancellation: applying a pose with bottom row `[0,0,0,1]` and then a left
inverse of it returns the original 3D point (the homogeneous coordinate stays
`1`, so the truncation between the two applications loses nothing). -/
theorem applyPose_left_inv_cancel (P B : Mat4) (hB' : B * P = 1)
    (h0 : P 3 0 = 0) (h1 : P 3 1 = 0) (h2 : P 3 2 = 0) (h3 : P 3 3 = 1)
    (p : Vec3) : applyPose B (applyPose P p) = p := by
  rcases p with ⟨x, y, z⟩
  have hv3 : P.mulVec ![x, y, z, 1] 3 = 1 := by
    simp [Matrix.mulVec, Matrix.dotProduct, Fin.sum_univ_four, h0, h1, h2, h3]
  have hv : ![P.mulVec ![x, y, z, 1] 0, P.mulVec ![x, y, z, 1] 1,
      P.mulVec ![x, y, z, 1] 2, (1 : ℚ)] = P.mulVec ![x, y, z, 1] := by
    funext i
    fin_cases i
    · rfl
    · rfl
    · rfl
    · exact hv3.symm
  show (B.mulVec ![P.mulVec ![x, y, z, 1] 0, P.mulVec ![x, y, z, 1] 1,
      P.mulVec ![x, y, z, 1] 2, 1] 0,
    B.mulVec ![P.mulVec ![x, y, z, 1] 0, P.mulVec ![x, y, z, 1] 1,
      P.mulVec ![x, y, z, 1] 2, 1] 1,
    B.mulVec ![P.mulVec ![x, y, z, 1] 0, P.mulVec ![x, y, z, 1] 1,
      P.mulVec ![x, y, z, 1] 2, 1] 2) = (x, y, z)
  rw [hv, Matrix.mulVec_mulVec, hB', Matrix.one_mulVec]
  rfl

/-- C4: computing scene flow with the identical (invertible, rigid) pose at
both endpoints yields zero flow at every pixel with positive depth, for
intrinsics with positive focal lengths. -/
theorem compute_flow_same_pose_zero (depth1 depth2 : ℕ → ℕ → ℚ)
    (P B : Mat4) (hB : P * B = 1) (hB' : B * P = 1)
    (h0 : P 3 0 = 0) (h1 : P 3 1 = 0) (h2 : P 3 2 = 0) (h3 : P 3 3 = 1)
    (intr : Intr) (hfx : 0 < intr.fx) (hfy : 0 < intr.fy)
    (py px : ℕ) (hd : 0 < depth1 py px) :
    compute_flow depth1 depth2 P P intr py px = some (0, 0) := by
  have hcancel : cam2Point depth1 P B intr py px =
      depth_to_points depth1 intr py px := by
    exact applyPose_left_inv_cancel P B hB' h0 h1 h2 h3 _
  have hz : 0 < (cam2Point depth1 P B intr py px).2.2 := by
    rw [hcancel]; exact hd
  have hmain := (compute_flow_pointwise depth1 depth2 P P B hB intr py px).1
    hd hz
  rw [hmain, hcancel]
  have hproj := project_unproject_id depth1 intr (ne_of_gt hfx)
    (ne_of_gt hfy) py px hd
  simp only [project_points, depth_to_points] at hproj
  have hu := congrArg Prod.fst hproj
  have hv := congrArg Prod.snd hproj
  simp only at hu hv
  simp only [depth_to_points]
  rw [hu, hv]
  simp

/-- Witness for C4, which is exactly the scenario from the claim:
depth `[[2.0]]`, `fx = fy = 1`, `cx = cy = 0`, identity poses: the pixel
unprojects to `(0, 0, 2)`, reprojects to `(0, 0)`, and the flow is `(0, 0)`. -/
theorem compute_flow_same_pose_zero_witness :
    depth_to_points (fun _ _ => 2) ⟨1, 1, 0, 0, 1, 1⟩ 0 0 =
      ((0 : ℚ), (0 : ℚ), (2 : ℚ)) ∧
    project_points (depth_to_points (fun _ _ => 2) ⟨1, 1, 0, 0, 1, 1⟩)
      ⟨1, 1, 0, 0, 1, 1⟩ 0 0 = (0, 0) ∧
    compute_flow (fun _ _ => 2) (fun _ _ => 2) 1 1 ⟨1, 1, 0, 0, 1, 1⟩ 0 0 =
      some (0, 0) :=
  ⟨by norm_num [depth_to_points],
    by norm_num [project_points, depth_to_points],
    compute_flow_same_pose_zero (fun _ _ => 2) (fun _ _ => 2) 1 1
      (one_mul 1) (one_mul 1)
      (by simp [Matrix.one_apply]) (by simp [Matrix.one_apply])
      (by simp [Matrix.one_apply]) (by simp [Matrix.one_apply])
      ⟨1, 1, 0, 0, 1, 1⟩ (by norm_num) (by norm_num) 0 0 (by norm_num)⟩

/-- C8: the second depth argument of `compute_flow` never influences the
result — the returned flow field is a function of `depth1`, the two poses and
the intrinsics only. -/
theorem compute_flow_ignores_depth2 (depth1 d2 d2' : ℕ → ℕ → ℚ)
    (pose1 pose2 : Mat4) (intr : Intr) :
    compute_flow depth1 d2 pose1 pose2 intr =
      compute_flow depth1 d2' pose1 pose2 intr := rfl

/-- A line yields an event exactly when it is non-blank and has 10 or 13
fields that all parse as numbers. -/
theorem parse_imu_line_isSome_iff (l : CsvLine) :
    (parse_imu_line l).isSome = true ↔
      l.blank = false ∧ (l.parts.length = 10 ∨ l.parts.length = 13) ∧
        ∀ p ∈ l.parts, p.isSome := by
  obtain ⟨b, parts⟩ := l
  cases b
  case true => simp [parse_imu_line]
  case false =>
    rcases parts with _ | ⟨_ | v0, parts⟩
    · simp [parse_imu_line]
    · simp [parse_imu_line]
    rcases parts with _ | ⟨_ | v1, parts⟩
    · simp [parse_imu_line]
    · simp [parse_imu_line]
    rcases parts with _ | ⟨_ | v2, parts⟩
    · simp [parse_imu_line]
    · simp [parse_imu_line]
    rcases parts with _ | ⟨_ | v3, parts⟩
    · simp [parse_imu_line]
    · simp [parse_imu_line]
    rcases parts with _ | ⟨_ | v4, parts⟩
    · simp [parse_imu_line]
    · simp [parse_imu_line]
    rcases parts with _ | ⟨_ | v5, parts⟩
    · simp [parse_imu_line]
    · simp [parse_imu_line]
    rcases parts with _ | ⟨_ | v6, parts⟩
    · simp [parse_imu_line]
    · simp [parse_imu_line]
    rcases parts with _ | ⟨_ | v7, parts⟩
    · simp [parse_imu_line]
    · simp [parse_imu_line]
    rcases parts with _ | ⟨_ | v8, parts⟩
    · simp [parse_imu_line]
    · simp [parse_imu_line]
    rcases parts with _ | ⟨_ | v9, parts⟩
    · simp [parse_imu_line]
    · simp [parse_imu_line]
    rcases parts with _ | ⟨_ | v10, parts⟩
    · simp [parse_imu_line]
    · simp [parse_imu_line]
    rcases parts with _ | ⟨_ | v11, parts⟩
    · simp [parse_imu_line]
    · simp [parse_imu_line]
    rcases parts with _ | ⟨_ | v12, parts⟩
    · simp [parse_imu_line]
    · simp [parse_imu_line]
    rcases parts with _ | ⟨v13, parts⟩
    · simp [parse_imu_line]
    · simp [parse_imu_line]

/-- An event carries gravity exactly when its source line had 13 fields. -/
theorem parse_imu_line_gravity (l : CsvLine) (e : ImuEvent)
    (h : parse_imu_line l = some e) :
    e.gravity.isSome ↔ l.parts.length = 13 := by
  unfold parse_imu_line at h
  split at h
  · exact absurd h (by simp)
  · split at h
    · obtain rfl := Option.some.inj h
      simp_all
    · obtain rfl := Option.some.inj h
      simp_all
    · exact absurd h (by simp)

/-- Every non-blank body line either yields an event or a warning. -/
theorem parse_imu_counts_add (body : List CsvLine) :
    (body.filterMap parse_imu_line).length +
      body.countP (fun l => !l.blank && (parse_imu_line l).isNone) =
      body.countP fun l => !l.blank := by
  induction body with
  | nil => rfl
  | cons a t ih =>
    rw [List.countP_cons, List.countP_cons]
    cases ha : parse_imu_line a with
    | some e =>
      have hb : a.blank = false :=
        ((parse_imu_line_isSome_iff a).mp (by simp [ha])).1
      simp [List.filterMap_cons, ha, hb]
      omega
    | none =>
      cases hb : a.blank <;> simp [List.filterMap_cons, ha, hb] <;> omega

/-- C6: `parse_imu_bin` returns one event per well-formed data line (a
non-blank line of exactly 10 or 13 fields that all parse as numbers, gravity
present iff 13 fields), and every other non-blank data line is skipped with a
logged warning; the parser is a total function, so no error reaches the
caller. -/
theorem parse_imu_bin_spec (lines : List CsvLine) :
    (parse_imu_bin lines).length =
      (lines.drop 1).countP (fun l => (parse_imu_line l).isSome) ∧
    (parse_imu_bin lines).length + parse_imu_warning_count lines =
      (lines.drop 1).countP (fun l => !l.blank) ∧
    (∀ l : CsvLine, (parse_imu_line l).isSome = true ↔
      l.blank = false ∧ (l.parts.length = 10 ∨ l.parts.length = 13) ∧
        ∀ p ∈ l.parts, p.isSome) ∧
    (∀ (l : CsvLine) (e : ImuEvent), parse_imu_line l = some e →
      (e.gravity.isSome ↔ l.parts.length = 13)) :=
  ⟨List.length_filterMap_eq_countP parse_imu_line (lines.drop 1),
   parse_imu_counts_add (lines.drop 1),
   parse_imu_line_isSome_iff,
   parse_imu_line_gravity⟩

/-- Witness for C6, the spec scenario: a file whose body holds 98 well-formed
and 2 malformed lines yields exactly 98 events and 2 warnings, and a
13-field line yields an event with gravity. -/
theorem parse_imu_bin_spec_witness :
    (parse_imu_bin imu_scenario_file).length = 98 ∧
    parse_imu_warning_count imu_scenario_file = 2 ∧
    ((parse_imu_line imu_line_thirteen).isSome = true) ∧
    (∀ e : ImuEvent, parse_imu_line imu_line_thirteen = some e →
      e.gravity.isSome) :=
  ⟨(parse_imu_bin_spec imu_scenario_file).1.trans (by decide),
   by
    have h := (parse_imu_bin_spec imu_scenario_file).2.1
    have h1 : (parse_imu_bin imu_scenario_file).length = 98 :=
      (parse_imu_bin_spec imu_scenario_file).1.trans (by decide)
    have h2 : (imu_scenario_file.drop 1).countP (fun l => !l.blank) = 100 :=
      by decide
    omega,
   ((parse_imu_bin_spec imu_scenario_file).2.2.1 imu_line_thirteen).mpr
     (by decide),
   fun e he =>
     ((parse_imu_bin_spec imu_scenario_file).2.2.2 imu_line_thirteen e
       he).mpr (by decide)⟩

/-- C10: `parse_imu_bin` unconditionally discards the first line of the file
as a header: the output never depends on the first line, and a one-line file
yields no events even when that line is a well-formed record. -/
theorem parse_imu_bin_drops_header :
    (∀ (l0 l0' : CsvLine) (rest : List CsvLine),
      parse_imu_bin (l0 :: rest) = parse_imu_bin (l0' :: rest)) ∧
    (∀ l0 : CsvLine, parse_imu_bin [l0] = []) :=
  ⟨fun _ _ _ => rfl, fun _ => rfl⟩

/-- C9: `load_depth_frames` appends a timestamp for every file before the
element-count check, so a file skipped for a wrong element count still
contributes a timestamp but no frame: on a directory with a malformed first
file and a valid second file the result has 1 frame but 2 timestamps, and the
only frame (from the file stamped 2) lines up with the skipped file's
timestamp 1. -/
theorem load_depth_frames_misaligned :
    (load_depth_frames [⟨5, some 1⟩, ⟨4, some 2⟩] 2 2).1 = [⟨4, some 2⟩] ∧
    (load_depth_frames [⟨5, some 1⟩, ⟨4, some 2⟩] 2 2).2 = [1, 2] ∧
    (load_depth_frames [⟨5, some 1⟩, ⟨4, some 2⟩] 2 2).1.length ≠
      (load_depth_frames [⟨5, some 1⟩, ⟨4, some 2⟩] 2 2).2.length := by
  decide

/-- The accumulator-respecting specification of Python
`min(list, key=g)`-style folding: the fold result is the accumulator or a
list element, and its key is minimal among both. -/
theorem foldl_argmin_spec (g : ℕ → ℚ) (xs : List ℕ) (b : ℕ) :
    ((xs.foldl (fun best j => if g j < g best then j else best) b = b ∨
      xs.foldl (fun best j => if g j < g best then j else best) b ∈ xs) ∧
     g (xs.foldl (fun best j => if g j < g best then j else best) b) ≤ g b ∧
     ∀ j ∈ xs,
       g (xs.foldl (fun best j => if g j < g best then j else best) b) ≤
         g j) := by
  induction xs generalizing b with
  | nil => simp
  | cons x t ih =>
    simp only [List.foldl_cons]
    by_cases hx : g x < g b
    · rw [if_pos hx]
      obtain ⟨hmem, hle, hall⟩ := ih x
      refine ⟨?_, hle.trans (le_of_lt hx), ?_⟩
      · rcases hmem with h | h
        · right; rw [h]; exact List.mem_cons_self x t
        · right; exact List.mem_cons_of_mem x h
      · intro j hj
        rcases List.mem_cons.mp hj with rfl | hj
        · exact hle
        · exact hall j hj
    · rw [if_neg hx]
      obtain ⟨hmem, hle, hall⟩ := ih b
      refine ⟨?_, hle, ?_⟩
      · rcases hmem with h | h
        · exact Or.inl h
        · right; exact List.mem_cons_of_mem x h
      · intro j hj
        rcases List.mem_cons.mp hj with rfl | hj
        · exact hle.trans (not_lt.mp hx)
        · exact hall j hj

/-- `min(range(n), key=g)` returns an index below `n` whose key is minimal. -/
theorem argmin_range_spec (g : ℕ → ℚ) (n : ℕ) (hn : 0 < n) :
    argmin_range g n < n ∧ ∀ j < n, g (argmin_range g n) ≤ g j := by
  obtain ⟨hmem, _, hall⟩ := foldl_argmin_spec g (List.range n) 0
  constructor
  · rcases hmem with h | h
    · rw [argmin_range, h]; exact hn
    · exact List.mem_range.mp h
  · intro j hj
    exact hall j (List.mem_range.mpr hj)

/-- C5 counterexample: with a 30 fps primary stream (4 frames spanning 0.1 s)
and a 10 fps depth target the spec decimation interval is `k = 3`, yet the
synchronizer fetches a depth frame on every one of the four steps — including
step 1, which is not a multiple of 3. -/
theorem depth_fetch_not_decimated :
    spec_decimation_interval [0, 1/30, 2/30, 1/10] 10 = 3 ∧
    depth_fetch_schedule [0, 1/30, 2/30, 1/10] [0] =
      [some 0, some 0, some 0, some 0] ∧
    (1 : ℕ) % 3 ≠ 0 := by
  refine ⟨?_, ?_, by decide⟩
  · have h : ((((4 : ℚ)) - 1) / ((1/10 : ℚ) - 0)) / 10 = 3 := by norm_num
    simp only [spec_decimation_interval, List.length_cons, List.length_nil,
      List.headD_cons, List.getLastD_cons, List.getLastD]
    norm_num [h]
  · have hr : List.range 1 = [0] := rfl
    simp [depth_fetch_schedule, argmin_range, hr, ite_self]

/-- C5 amended: the synchronized loop fetches depth on every primary step
(no decimation): whenever the depth stream is nonempty, step `i` selects a
depth index whose timestamp distance to the step's timestamp is minimal. -/
theorem depth_fetch_every_step (prim dts : List ℚ) (i : ℕ)
    (hi : i < prim.length) (hd : dts ≠ []) :
    ∃ j, (depth_fetch_schedule prim dts).get? i = some (some j) ∧
      j < dts.length ∧
      ∀ k < dts.length,
        |dts.getD j 0 - prim.getD i 0| ≤ |dts.getD k 0 - prim.getD i 0| := by
  have hlen : 0 < dts.length := List.length_pos.mpr hd
  have hne : dts.isEmpty = false := by
    cases dts with
    | nil => exact absurd rfl hd
    | cons a t => rfl
  have hget : prim.get? i = some (prim.get ⟨i, hi⟩) := List.get?_eq_get hi
  have hgetD : prim.getD i 0 = prim.get ⟨i, hi⟩ := by
    rw [List.getD_eq_get?, hget]; rfl
  obtain ⟨hlt, hmin⟩ :=
    argmin_range_spec (fun j => |dts.getD j 0 - prim.get ⟨i, hi⟩|)
      dts.length hlen
  refine ⟨argmin_range (fun j => |dts.getD j 0 - prim.get ⟨i, hi⟩|)
    dts.length, ?_, hlt, ?_⟩
  · rw [depth_fetch_schedule, List.get?_map, hget]
    simp [hne]
  · intro k hk
    rw [hgetD]
    exact hmin k hk

theorem quatNormSq_nonneg (q : Quat) : 0 ≤ quatNormSq q := by
  unfold quatNormSq; positivity

theorem quatNorm_sq_eq (q : Quat) : quatNorm q ^ 2 = quatNormSq q :=
  Real.sq_sqrt (quatNormSq_nonneg q)

/-- The four-square identity: the squared norm of a Hamilton product is the
product of the squared norms. -/
theorem quatNormSq_hamilton (a b : Quat) :
    quatNormSq (hamilton a b) = quatNormSq a * quatNormSq b := by
  obtain ⟨x1, y1, z1, w1⟩ := a
  obtain ⟨x2, y2, z2, w2⟩ := b
  simp only [hamilton, quatNormSq]
  ring

theorem quatNormSq_scale (c : ℝ) (q : Quat) :
    quatNormSq (quatScale c q) = c ^ 2 * quatNormSq q := by
  obtain ⟨x, y, z, w⟩ := q
  simp only [quatScale, quatNormSq]
  ring

/-- SciPy-style composition of two quaternions of nonzero norm always has
unit norm. -/
theorem quatNormSq_mul_one (q1 q2 : Quat) (h1 : quatNormSq q1 ≠ 0)
    (h2 : quatNormSq q2 ≠ 0) :
    quatNormSq (quaternion_multiply q1 q2) = 1 := by
  unfold quaternion_multiply
  rw [quatNormSq_hamilton, quatNormSq_scale, quatNormSq_scale, inv_pow,
    inv_pow, quatNorm_sq_eq, quatNorm_sq_eq]
  field_simp

theorem quatScale_one (q : Quat) : quatScale 1 q = q := by
  obtain ⟨x, y, z, w⟩ := q
  simp [quatScale]

/-- Both post-composition guards leave a unit-norm quaternion unchanged. -/
theorem quat_unit_unchanged (q : Quat) (h : quatNormSq q = 1) :
    renorm_imu_only_site q = q ∧ renorm_sync_site q = q := by
  have hn : quatNorm q = 1 := by rw [quatNorm, h, Real.sqrt_one]
  have hlt : (1e-6 : ℝ) < quatNorm q := by rw [hn]; norm_num
  constructor
  · rw [renorm_imu_only_site, if_pos hlt, hn, inv_one, quatScale_one]
  · rw [renorm_sync_site, if_pos hlt, hn, inv_one, quatScale_one]

/-- C7 counterexample: the IMU-only call site does not replace a
near-zero-norm quaternion with the identity rotation — the zero quaternion
(norm 0 < 1e-6) passes through unchanged and differs from the identity. -/
theorem quaternion_renorm_counterexample :
    quatNorm ((0 : ℝ), (0 : ℝ), (0 : ℝ), (0 : ℝ)) < 1e-6 ∧
    renorm_imu_only_site ((0 : ℝ), (0 : ℝ), (0 : ℝ), (0 : ℝ)) =
      ((0 : ℝ), (0 : ℝ), (0 : ℝ), (0 : ℝ)) ∧
    ((0 : ℝ), (0 : ℝ), (0 : ℝ), (0 : ℝ)) ≠ quatId := by
  have h0 : quatNorm ((0 : ℝ), (0 : ℝ), (0 : ℝ), (0 : ℝ)) = 0 := by
    rw [quatNorm]
    norm_num [quatNormSq]
  refine ⟨by rw [h0]; norm_num, ?_, ?_⟩
  · rw [renorm_imu_only_site, if_neg]
    rw [h0]; norm_num
  · simp [quatId, Prod.ext_iff]

/-- C7 amended: only the synchronized-loop guard substitutes the identity for
a near-zero-norm (≤ 1e-6) result — the IMU-only guard keeps such a result
unchanged; and every `quaternion_multiply` composition of nonzero-norm inputs
has unit norm, so on actual composition results both guards are the identity
map and the near-zero fallback never fires. -/
theorem quaternion_renorm_amended :
    (∀ q : Quat, quatNorm q ≤ 1e-6 →
      renorm_sync_site q = quatId ∧ renorm_imu_only_site q = q) ∧
    (∀ q1 q2 : Quat, quatNormSq q1 ≠ 0 → quatNormSq q2 ≠ 0 →
      quatNormSq (quaternion_multiply q1 q2) = 1 ∧
      renorm_imu_only_site (quaternion_multiply q1 q2) =
        quaternion_multiply q1 q2 ∧
      renorm_sync_site (quaternion_multiply q1 q2) =
        quaternion_multiply q1 q2) := by
  constructor
  · intro q hq
    have hnot : ¬((1e-6 : ℝ) < quatNorm q) := not_lt.mpr hq
    exact ⟨by rw [renorm_sync_site, if_neg hnot],
      by rw [renorm_imu_only_site, if_neg hnot]⟩
  · intro q1 q2 h1 h2
    have hu := quatNormSq_mul_one q1 q2 h1 h2
    obtain ⟨ha, hb⟩ := quat_unit_unchanged _ hu
    exact ⟨hu, ha, hb⟩

/-- Witness for the amended C7: composing the identity rotation with itself
yields a unit-norm result that both guards keep unchanged. -/
theorem quaternion_renorm_amended_witness :
    quatNormSq quatId ≠ 0 ∧
    quatNormSq (quaternion_multiply quatId quatId) = 1 ∧
    renorm_imu_only_site (quaternion_multiply quatId quatId) =
      quaternion_multiply quatId quatId ∧
    renorm_sync_site (quaternion_multiply quatId quatId) =
      quaternion_multiply quatId quatId := by
  have hne : quatNormSq quatId ≠ 0 := by norm_num [quatNormSq, quatId]
  obtain ⟨h1, h2, h3⟩ := quaternion_renorm_amended.2 quatId quatId hne hne
  exact ⟨hne, h1, h2, h3⟩

/-- Witness for the amended C5 at a one-step, one-depth-frame session. -/
theorem depth_fetch_every_step_witness :
    ∃ j, (depth_fetch_schedule [(0 : ℚ)] [(5 : ℚ)]).get? 0 = some (some j) ∧
      j < [(5 : ℚ)].length ∧
      ∀ k < [(5 : ℚ)].length,
        |[(5 : ℚ)].getD j 0 - [(0 : ℚ)].getD 0 0| ≤
          |[(5 : ℚ)].getD k 0 - [(0 : ℚ)].getD 0 0| :=
  depth_fetch_every_step [0] [5] 0 (by decide) (by simp)

/-- In an ascending-sorted list, the entry at position `i` is below `t`
exactly when `i` lies below the left insertion index of `t` (the count of
entries below `t`). -/
theorem sorted_getD_lt_iff (t : ℚ) (ts : List ℚ)
    (hs : List.Sorted (· ≤ ·) ts) :
    ∀ i, i < ts.length →
      (ts.getD i 0 < t ↔ i < ts.countP (fun x => x < t)) := by
  induction ts with
  | nil => intro i hi; simp at hi
  | cons a tl ih =>
    rw [List.sorted_cons] at hs
    obtain ⟨ha, htl⟩ := hs
    intro i hi
    rw [List.countP_cons]
    cases i with
    | zero =>
      rw [List.getD_cons_zero]
      by_cases hat : a < t
      · simp [hat]
      · have h0 : tl.countP (fun x => x < t) = 0 := by
          rw [List.countP_eq_zero]
          intro x hx
          simp only [decide_eq_true_eq]
          exact fun hlt => hat (lt_of_le_of_lt (ha x hx) hlt)
        simp [hat, h0]
    | succ i =>
      rw [List.getD_cons_succ]
      have hi' : i < tl.length := by simpa using hi
      by_cases hat : a < t
      · have hd : (decide (a < t)) = true := decide_eq_true hat
        rw [ih htl i hi', hd]
        simp only [if_true]
        omega
      · have h0 : tl.countP (fun x => x < t) = 0 := by
          rw [List.countP_eq_zero]
          intro x hx
          simp only [decide_eq_true_eq]
          exact fun hlt => hat (lt_of_le_of_lt (ha x hx) hlt)
        have hgd : tl.getD i 0 = tl.get ⟨i, hi'⟩ := by
          rw [List.getD_eq_get?, List.get?_eq_get hi']
          rfl
        have hmem : tl.get ⟨i, hi'⟩ ∈ tl := List.get_mem tl i hi'
        have hnlt : ¬ tl.getD i 0 < t := by
          rw [hgd]
          exact fun hlt => hat (lt_of_le_of_lt (ha _ hmem) hlt)
        have hd : (decide (a < t)) = false := decide_eq_false hat
        rw [h0, hd]
        norm_num
        rw [List.getD_eq_getElem?_getD] at hnlt
        exact not_lt.mp hnlt

/-- On a nonempty list the lookup reduces to the four-way branch of the
source. -/
theorem find_closest_by_eq_ifs {α : Type} (f : α → ℚ) (t : ℚ) (l : List α)
    (hne : l ≠ []) :
    find_closest_by f t l =
      (if searchsorted_left (l.map f) t = 0 then l.get? 0
       else if searchsorted_left (l.map f) t = l.length then
         l.get? (l.length - 1)
       else if t - (l.map f).getD (searchsorted_left (l.map f) t - 1) 0 <
              (l.map f).getD (searchsorted_left (l.map f) t) 0 - t then
         l.get? (searchsorted_left (l.map f) t - 1)
       else l.get? (searchsorted_left (l.map f) t)) := by
  cases l with
  | nil => exact absurd rfl hne
  | cons a tl => rfl

/-- On a sorted nonempty input the lookup returns an element of minimal
timestamp distance. -/
theorem find_closest_by_min {α : Type} (f : α → ℚ) (t : ℚ) (l : List α)
    (hs : List.Sorted (· ≤ ·) (l.map f)) (hne : l ≠ []) :
    ∃ e, find_closest_by f t l = some e ∧ e ∈ l ∧
      ∀ x ∈ l, |f e - t| ≤ |f x - t| := by
  have hn0 : 0 < l.length := List.length_pos.mpr hne
  have hts_len : (l.map f).length = l.length := List.length_map l f
  have hbridge : ∀ (j : ℕ) (hj : j < l.length),
      (l.map f).getD j 0 = f (l.get ⟨j, hj⟩) := by
    intro j hj
    rw [List.getD_eq_get?, List.get?_map, List.get?_eq_get hj]
    rfl
  have hidxle : searchsorted_left (l.map f) t ≤ l.length := by
    rw [← hts_len]
    exact List.countP_le_length _
  have hlow : ∀ (j : ℕ) (hj : j < l.length),
      j < searchsorted_left (l.map f) t → f (l.get ⟨j, hj⟩) < t := by
    intro j hj hlt
    rw [← hbridge j hj]
    exact (sorted_getD_lt_iff t (l.map f) hs j (by rw [hts_len]; exact hj)).mpr
      hlt
  have hhigh : ∀ (j : ℕ) (hj : j < l.length),
      searchsorted_left (l.map f) t ≤ j → t ≤ f (l.get ⟨j, hj⟩) := by
    intro j hj hge
    rw [← hbridge j hj]
    by_contra hcon
    have := (sorted_getD_lt_iff t (l.map f) hs j
      (by rw [hts_len]; exact hj)).mp (not_le.mp hcon)
    unfold searchsorted_left at hge
    omega
  have hmono : ∀ (i j : ℕ) (hi : i < l.length) (hj : j < l.length), i ≤ j →
      f (l.get ⟨i, hi⟩) ≤ f (l.get ⟨j, hj⟩) := by
    intro i j hi hj hij
    have hi2 : i < (l.map f).length := by rw [hts_len]; exact hi
    have hj2 : j < (l.map f).length := by rw [hts_len]; exact hj
    have hget : ∀ (k : ℕ) (hk : k < (l.map f).length)
        (hk2 : k < l.length),
        (l.map f).get ⟨k, hk⟩ = f (l.get ⟨k, hk2⟩) := by
      intro k hk hk2
      rw [← hbridge k hk2, List.getD_eq_get?, List.get?_eq_get hk]
      rfl
    have := List.Sorted.rel_get_of_le hs
      (a := ⟨i, hi2⟩) (b := ⟨j, hj2⟩) hij
    rwa [hget i hi2 hi, hget j hj2 hj] at this
  rw [find_closest_by_eq_ifs f t l hne]
  by_cases h0 : searchsorted_left (l.map f) t = 0
  · rw [if_pos h0]
    refine ⟨l.get ⟨0, hn0⟩, List.get?_eq_get hn0, List.get_mem l 0 hn0, ?_⟩
    intro x hx
    obtain ⟨⟨j, hj⟩, rfl⟩ := List.mem_iff_get.mp hx
    have h1 : t ≤ f (l.get ⟨0, hn0⟩) := hhigh 0 hn0 (by omega)
    have h2 : t ≤ f (l.get ⟨j, hj⟩) := hhigh j hj (by omega)
    have h3 : f (l.get ⟨0, hn0⟩) ≤ f (l.get ⟨j, hj⟩) :=
      hmono 0 j hn0 hj (Nat.zero_le j)
    rw [abs_of_nonneg (by linarith), abs_of_nonneg (by linarith)]
    linarith
  · by_cases hN : searchsorted_left (l.map f) t = l.length
    · rw [if_neg h0, if_pos hN]
      have hj1 : l.length - 1 < l.length := by omega
      refine ⟨l.get ⟨l.length - 1, hj1⟩, List.get?_eq_get hj1,
        List.get_mem l _ hj1, ?_⟩
      intro x hx
      obtain ⟨⟨j, hj⟩, rfl⟩ := List.mem_iff_get.mp hx
      have h1 : f (l.get ⟨l.length - 1, hj1⟩) < t := hlow _ hj1 (by omega)
      have h2 : f (l.get ⟨j, hj⟩) < t := hlow j hj (by omega)
      have h3 : f (l.get ⟨j, hj⟩) ≤ f (l.get ⟨l.length - 1, hj1⟩) :=
        hmono j _ hj hj1 (by omega)
      rw [abs_of_nonpos (by linarith), abs_of_nonpos (by linarith)]
      linarith
    · have hlt : searchsorted_left (l.map f) t < l.length :=
        lt_of_le_of_ne hidxle hN
      have hj0 : searchsorted_left (l.map f) t - 1 < l.length := by omega
      have hfb : f (l.get ⟨searchsorted_left (l.map f) t - 1, hj0⟩) < t :=
        hlow _ hj0 (by omega)
      have hfa : t ≤ f (l.get ⟨searchsorted_left (l.map f) t, hlt⟩) :=
        hhigh _ hlt le_rfl
      rw [if_neg h0, if_neg hN, hbridge _ hj0, hbridge _ hlt]
      by_cases hcmp : t - f (l.get ⟨searchsorted_left (l.map f) t - 1, hj0⟩) <
          f (l.get ⟨searchsorted_left (l.map f) t, hlt⟩) - t
      · rw [if_pos hcmp]
        refine ⟨l.get ⟨searchsorted_left (l.map f) t - 1, hj0⟩,
          List.get?_eq_get hj0, List.get_mem l _ hj0, ?_⟩
        intro x hx
        obtain ⟨⟨j, hj⟩, rfl⟩ := List.mem_iff_get.mp hx
        rcases lt_or_ge j (searchsorted_left (l.map f) t) with hji | hji
        · have h2 : f (l.get ⟨j, hj⟩) < t := hlow j hj hji
          have h3 : f (l.get ⟨j, hj⟩) ≤
              f (l.get ⟨searchsorted_left (l.map f) t - 1, hj0⟩) :=
            hmono j _ hj hj0 (by omega)
          rw [abs_of_nonpos (by linarith), abs_of_nonpos (by linarith)]
          linarith
        · have h2 : t ≤ f (l.get ⟨j, hj⟩) := hhigh j hj hji
          have h3 : f (l.get ⟨searchsorted_left (l.map f) t, hlt⟩) ≤
              f (l.get ⟨j, hj⟩) := hmono _ j hlt hj hji
          rw [abs_of_nonpos (by linarith), abs_of_nonneg (by linarith)]
          linarith
      · rw [if_neg hcmp]
        refine ⟨l.get ⟨searchsorted_left (l.map f) t, hlt⟩,
          List.get?_eq_get hlt, List.get_mem l _ hlt, ?_⟩
        intro x hx
        obtain ⟨⟨j, hj⟩, rfl⟩ := List.mem_iff_get.mp hx
        rcases lt_or_ge j (searchsorted_left (l.map f) t) with hji | hji
        · have h2 : f (l.get ⟨j, hj⟩) < t := hlow j hj hji
          have h3 : f (l.get ⟨j, hj⟩) ≤
              f (l.get ⟨searchsorted_left (l.map f) t - 1, hj0⟩) :=
            hmono j _ hj hj0 (by omega)
          rw [abs_of_nonneg (by linarith), abs_of_nonpos (by linarith)]
          linarith
        · have h2 : t ≤ f (l.get ⟨j, hj⟩) := hhigh j hj hji
          have h3 : f (l.get ⟨searchsorted_left (l.map f) t, hlt⟩) ≤
              f (l.get ⟨j, hj⟩) := hmono _ j hlt hj hji
          rw [abs_of_nonneg (by linarith), abs_of_nonneg (by linarith)]
          linarith

/-- Below-range queries clamp to the first element. -/
theorem find_closest_by_below {α : Type} (f : α → ℚ) (t : ℚ) (l : List α)
    (hs : List.Sorted (· ≤ ·) (l.map f)) (hne : l ≠ [])
    (hlow : t ≤ f (l.head hne)) :
    find_closest_by f t l = some (l.head hne) := by
  cases l with
  | nil => exact absurd rfl hne
  | cons a tl =>
    rw [find_closest_by_eq_ifs f t _ hne]
    have h0 : searchsorted_left ((a :: tl).map f) t = 0 := by
      unfold searchsorted_left
      rw [List.countP_eq_zero]
      intro x hx
      simp only [decide_eq_true_eq]
      rw [List.map_cons] at hx
      rw [List.map_cons, List.sorted_cons] at hs
      rcases List.mem_cons.mp hx with rfl | hx
      · exact not_lt.mpr hlow
      · exact not_lt.mpr (le_trans hlow (hs.1 x hx))
    rw [if_pos h0]
    rfl

/-- Above-range queries clamp to the last element. -/
theorem find_closest_by_above {α : Type} (f : α → ℚ) (t : ℚ) (l : List α)
    (hs : List.Sorted (· ≤ ·) (l.map f)) (hne : l ≠ [])
    (hhigh : f (l.getLast hne) < t) :
    find_closest_by f t l = some (l.getLast hne) := by
  have hn0 : 0 < l.length := List.length_pos.mpr hne
  have hts_len : (l.map f).length = l.length := List.length_map l f
  have hlast_lt : l.length - 1 < l.length := by omega
  have hlast : l.getLast hne = l.get ⟨l.length - 1, hlast_lt⟩ :=
    List.getLast_eq_get l hne
  have hall : ∀ x ∈ l.map f, x < t := by
    intro x hx
    obtain ⟨⟨j, hj⟩, rfl⟩ := List.mem_iff_get.mp hx
    have hj2 : l.length - 1 < (l.map f).length := by omega
    have hle := List.Sorted.rel_get_of_le hs
      (a := ⟨j, hj⟩) (b := ⟨l.length - 1, hj2⟩) (by
        have := hj
        rw [hts_len] at this
        simp only [Fin.mk_le_mk]
        omega)
    have hgm : (l.map f).get ⟨l.length - 1, hj2⟩ =
        f (l.get ⟨l.length - 1, hlast_lt⟩) := by
      rw [List.get_map]
    calc (l.map f).get ⟨j, hj⟩ ≤ _ := hle
      _ = f (l.get ⟨l.length - 1, hlast_lt⟩) := hgm
      _ < t := by rw [← hlast]; exact hhigh
  have hN : searchsorted_left (l.map f) t = l.length := by
    unfold searchsorted_left
    rw [← hts_len, List.countP_eq_length]
    intro x hx
    simp only [decide_eq_true_eq]
    exact hall x hx
  rw [find_closest_by_eq_ifs f t l hne, if_neg (by omega), if_pos hN,
    hlast]
  exact List.get?_eq_get hlast_lt

/-- An exact distance tie between the neighbours of the insertion point
resolves to the later (insertion-index) element. -/
theorem find_closest_by_tie {α : Type} (f : α → ℚ) (t : ℚ) (l : List α)
    (h0 : searchsorted_left (l.map f) t ≠ 0)
    (hN : searchsorted_left (l.map f) t < l.length)
    (heq : t - (l.map f).getD (searchsorted_left (l.map f) t - 1) 0 =
           (l.map f).getD (searchsorted_left (l.map f) t) 0 - t) :
    find_closest_by f t l = l.get? (searchsorted_left (l.map f) t) := by
  have hne : l ≠ [] := by
    intro h
    rw [h] at hN
    simp at hN
  rw [find_closest_by_eq_ifs f t l hne, if_neg h0, if_neg (ne_of_lt hN),
    if_neg (by rw [heq]; exact lt_irrefl _)]

/-- C2: the nearest-timestamp lookups (`find_closest_imu_event` and
`find_closest_pose`) return `none` on an empty sequence; on a sorted
nonempty sequence they return an element of minimal |timestamp - t|,
clamp to the first element below range and to the last element above
range, and resolve an exact tie between the neighbours of the insertion
point to the later element. -/
theorem find_closest_spec :
    (∀ t : ℚ, find_closest_imu_event t [] = none) ∧
    (∀ t : ℚ, find_closest_pose t [] = none) ∧
    (∀ (t : ℚ) (l : List ImuEvent),
      List.Sorted (· ≤ ·) (l.map ImuEvent.timestamp) → l ≠ [] →
      ∃ e, find_closest_imu_event t l = some e ∧ e ∈ l ∧
        ∀ x ∈ l, |e.timestamp - t| ≤ |x.timestamp - t|) ∧
    (∀ (t : ℚ) (l : List PoseEntry),
      List.Sorted (· ≤ ·) (l.map PoseEntry.timestamp) → l ≠ [] →
      ∃ e, find_closest_pose t l = some e ∧ e ∈ l ∧
        ∀ x ∈ l, |e.timestamp - t| ≤ |x.timestamp - t|) ∧
    (∀ (t : ℚ) (l : List ImuEvent)
      (_ : List.Sorted (· ≤ ·) (l.map ImuEvent.timestamp)) (hne : l ≠ []),
      t ≤ (l.head hne).timestamp →
      find_closest_imu_event t l = some (l.head hne)) ∧
    (∀ (t : ℚ) (l : List PoseEntry)
      (_ : List.Sorted (· ≤ ·) (l.map PoseEntry.timestamp)) (hne : l ≠ []),
      t ≤ (l.head hne).timestamp →
      find_closest_pose t l = some (l.head hne)) ∧
    (∀ (t : ℚ) (l : List ImuEvent)
      (_ : List.Sorted (· ≤ ·) (l.map ImuEvent.timestamp)) (hne : l ≠ []),
      (l.getLast hne).timestamp < t →
      find_closest_imu_event t l = some (l.getLast hne)) ∧
    (∀ (t : ℚ) (l : List PoseEntry)
      (_ : List.Sorted (· ≤ ·) (l.map PoseEntry.timestamp)) (hne : l ≠ []),
      (l.getLast hne).timestamp < t →
      find_closest_pose t l = some (l.getLast hne)) ∧
    (∀ (t : ℚ) (l : List ImuEvent),
      searchsorted_left (l.map ImuEvent.timestamp) t ≠ 0 →
      searchsorted_left (l.map ImuEvent.timestamp) t < l.length →
      t - (l.map ImuEvent.timestamp).getD
          (searchsorted_left (l.map ImuEvent.timestamp) t - 1) 0 =
        (l.map ImuEvent.timestamp).getD
          (searchsorted_left (l.map ImuEvent.timestamp) t) 0 - t →
      find_closest_imu_event t l =
        l.get? (searchsorted_left (l.map ImuEvent.timestamp) t)) ∧
    (∀ (t : ℚ) (l : List PoseEntry),
      searchsorted_left (l.map PoseEntry.timestamp) t ≠ 0 →
      searchsorted_left (l.map PoseEntry.timestamp) t < l.length →
      t - (l.map PoseEntry.timestamp).getD
          (searchsorted_left (l.map PoseEntry.timestamp) t - 1) 0 =
        (l.map PoseEntry.timestamp).getD
          (searchsorted_left (l.map PoseEntry.timestamp) t) 0 - t →
      find_closest_pose t l =
        l.get? (searchsorted_left (l.map PoseEntry.timestamp) t)) := by
  refine ⟨fun _ => rfl, fun _ => rfl, ?_, ?_, ?_, ?_, ?_, ?_, ?_, ?_⟩
  · intro t l hs hne
    exact find_closest_by_min ImuEvent.timestamp t l hs hne
  · intro t l hs hne
    exact find_closest_by_min PoseEntry.timestamp t l hs hne
  · intro t l hs hne hlow
    exact find_closest_by_below ImuEvent.timestamp t l hs hne hlow
  · intro t l hs hne hlow
    exact find_closest_by_below PoseEntry.timestamp t l hs hne hlow
  · intro t l hs hne hhigh
    exact find_closest_by_above ImuEvent.timestamp t l hs hne hhigh
  · intro t l hs hne hhigh
    exact find_closest_by_above PoseEntry.timestamp t l hs hne hhigh
  · intro t l h0 hN heq
    exact find_closest_by_tie ImuEvent.timestamp t l h0 hN heq
  · intro t l h0 hN heq
    exact find_closest_by_tie PoseEntry.timestamp t l h0 hN heq

/-- Witness for C2: on the two-sample stream with timestamps 0 and 10 the
query 5 is an exact tie, and both lookups resolve it to the later sample. -/
theorem find_closest_spec_witness :
    (∃ e, find_closest_imu_event 5
        [⟨0, (0, 0, 0), (0, 0, 0), (0, 0, 0), none⟩,
         ⟨10, (0, 0, 0), (0, 0, 0), (0, 0, 0), none⟩] = some e ∧
      e ∈ [⟨0, (0, 0, 0), (0, 0, 0), (0, 0, 0), none⟩,
           ⟨10, (0, 0, 0), (0, 0, 0), (0, 0, 0), none⟩] ∧
      ∀ x ∈ [(⟨0, (0, 0, 0), (0, 0, 0), (0, 0, 0), none⟩ : ImuEvent),
             ⟨10, (0, 0, 0), (0, 0, 0), (0, 0, 0), none⟩],
        |e.timestamp - 5| ≤ |x.timestamp - 5|) ∧
    find_closest_pose 5 [⟨0, 1⟩, ⟨10, 1⟩] = some ⟨10, 1⟩ := by
  constructor
  · exact find_closest_spec.2.2.1 5 _
      (by norm_num [List.sorted_cons]) (by simp)
  · have hidx : searchsorted_left
        (([⟨0, 1⟩, ⟨10, 1⟩] : List PoseEntry).map PoseEntry.timestamp) 5 =
        1 := by
      norm_num [searchsorted_left, List.countP_cons, List.countP_nil]
    have h := find_closest_spec.2.2.2.2.2.2.2.2.2 5
      ([⟨0, 1⟩, ⟨10, 1⟩] : List PoseEntry)
      (by rw [hidx]; exact one_ne_zero)
      (by rw [hidx]; norm_num)
      (by rw [hidx]; norm_num)
    rw [h, hidx]
    rfl
